import Mathlib

/-!
Verification of the transaction-enrichment pipeline of spendify-server
(`getAccountTransactions` in `src/layers/api/accounts/accounts.handlers.ts`).

The handler receives the provider's booked transactions (newest first) and the
account's current balance, then:
  1. maps each transaction to an enriched record, threading a mutable
     `currentBalance` that is decremented by the previous transaction's amount
     (balance reconstruction, exact decimal arithmetic in minor units);
  2. optionally reorders/filters by fuzzy search on the title;
  3. optionally filters to the inclusive day-level window `[from, to]`;
  4. classifies each title with a Bayes classifier and optionally filters by
     the requested category;
  5. sorts the survivors back by ascending `weight` (the original index).

External libraries (fuzzysort, the natural Bayes classifier) are opaque at the
code's boundary and appear here as function parameters.  Amounts and balances
are exact decimals at two minor-unit digits, modelled as integers of minor
units; dates are millisecond timestamps with day boundaries at multiples of
86400000 (the server timezone's day grid).
-/

namespace Spendify

/-- A booked transaction as delivered by the banking provider: id, booking
date (timestamp of the date string), the signed decimal amount string, and the
free-text remittance lines (`remittanceInformationUnstructuredArray`). -/
structure RawTransaction where
  transactionId : String
  bookingDate : Nat
  transactionAmount : String
  remittanceInformationUnstructuredArray : List String
deriving Repr, DecidableEq

/-- The record built by the balance-mapping step (handler lines 306-324):
`title` is `remittanceInformationUnstructuredArray[0]`, which in JS is
`undefined` when the array is empty, hence `Option String`;
`amount` is the parsed transaction amount and `totalAmountInt` the
reconstructed running balance, both in exact minor units. -/
structure MappedTransaction where
  id : String
  weight : Nat
  title : Option String
  date : Nat
  amount : Int
  totalAmountInt : Int
deriving Repr, DecidableEq

/-- A mapped transaction with the classifier's label attached
(`{...transaction, category: classifiedCategory}`). -/
structure CategorizedTransaction where
  id : String
  weight : Nat
  title : Option String
  date : Nat
  amount : Int
  totalAmountInt : Int
  category : String
deriving Repr, DecidableEq

/-- Error raised when a provider amount string is not numeric. -/
inductive DataFormatError where
  | malformedAmount
deriving Repr, DecidableEq

/-- Digits of a nonempty all-digit character list, as a number. -/
def decDigits? (cs : List Char) : Option Nat :=
  if cs.isEmpty || !cs.all Char.isDigit then none
  else some (cs.foldl (fun a c => a * 10 + (c.toNat - 48)) 0)

/-- Value in hundredths contributed by a fraction part of at most two digits. -/
def fracCents (cs : List Char) : Nat :=
  (cs.foldl (fun a c => a * 10 + (c.toNat - 48)) 0) * (if cs.length = 1 then 10 else 1)

/-- Modelled from the spec: `NORDIGEN_CURRENCY` lives in `@global/constants`,
which is not among the repository files; per the spec, currency.js is
configured so that arithmetic is exact to the two-digit minor unit and a
non-numeric amount string raises a `DataFormatError`.  A well-formed amount is
an optional minus sign, a nonempty digit string, and an optional fraction of
at most two digits; the result is the value in minor units (cents). -/
def parseAmount (s : String) : Option Int :=
  let core : List Char → Option Nat := fun cs =>
    match cs.splitOn '.' with
    | [whole] => (decDigits? whole).map (· * 100)
    | [whole, frac] =>
      if frac.length ≤ 2 && frac.all Char.isDigit then
        (decDigits? whole).map (fun n => n * 100 + fracCents frac)
      else none
    | _ => none
  match s.data with
  | '-' :: rest => (core rest).map (fun n => -(n : Int))
  | cs => (core cs).map (fun n => (n : Int))

/-- The balance-mapping step (handler lines 306-324), with the running index
and the mutable `currentBalance` made explicit.  Index 0 keeps the current
balance; each later index first subtracts the previous transaction's amount.
Every transaction's own amount is parsed (line 320), so any malformed amount
fails the whole map. -/
def annotateFrom : List RawTransaction → Nat → Int →
    Except DataFormatError (List MappedTransaction)
  | [], _, _ => Except.ok []
  | tx :: rest, index, bal =>
    match parseAmount tx.transactionAmount with
    | none => Except.error DataFormatError.malformedAmount
    | some a =>
      match annotateFrom rest (index + 1) (bal - a) with
      | Except.error e => Except.error e
      | Except.ok tail =>
        Except.ok
          ({ id := tx.transactionId
             weight := index
             title := tx.remittanceInformationUnstructuredArray.head?
             date := tx.bookingDate
             amount := a
             totalAmountInt := bal } :: tail)

/-- The handler's `transactions.map(...)`: balance reconstruction over the
whole list, starting at index 0 from the current balance. -/
def annotate (txs : List RawTransaction) (currentBalance : Int) :
    Except DataFormatError (List MappedTransaction) :=
  annotateFrom txs 0 currentBalance

/-- JS falsiness of an optional string (`undefined` and `""` are falsy). -/
def jsFalsy : Option String → Bool
  | none => true
  | some s => s == ""

/-- The fuzzy-search step (handler lines 327-329): `search ? fuzzysort.go(...)
: mappedTransactions`.  The external `fuzzysort.go` call, which returns some
of the input objects ordered by score, is the opaque parameter `fz`. -/
def searchStep (fz : String → List MappedTransaction → List MappedTransaction)
    (q : Option String) (txs : List MappedTransaction) : List MappedTransaction :=
  match q with
  | none => txs
  | some s => if s == "" then txs else fz s txs

/-- Day length in milliseconds. -/
def dayMs : Nat := 86400000

/-- date-fns `startOfDay` on the day grid: the enclosing day's first instant. -/
def startOfDay (t : Nat) : Nat := t / dayMs * dayMs

/-- date-fns `endOfDay` on the day grid: the enclosing day's last instant. -/
def endOfDay (t : Nat) : Nat := startOfDay t + (dayMs - 1)

/-- The interval-filtering step (handler lines 332-341): active only when both
bounds are present; keeps a transaction iff
`startOfDay(from) <= date <= endOfDay(to)`. -/
def dateStep (dFrom dTo : Option Nat) (txs : List MappedTransaction) :
    List MappedTransaction :=
  match dFrom, dTo with
  | some f, some t =>
    txs.filter (fun tx => decide (startOfDay f ≤ tx.date) && decide (tx.date ≤ endOfDay t))
  | _, _ => txs

/-- The spread `{...transaction, category: classifier label}` for one transaction. -/
def attachCategory (classify : Option String → String) (tx : MappedTransaction) :
    CategorizedTransaction :=
  { id := tx.id
    weight := tx.weight
    title := tx.title
    date := tx.date
    amount := tx.amount
    totalAmountInt := tx.totalAmountInt
    category := classify tx.title }

/-- The categorization step (handler lines 344-356): label every transaction
with `classifier.getClassifications(title)[0].label` (the opaque `classify`)
and keep it iff `!category || category === classifiedCategory`. -/
def categorizeStep (classify : Option String → String) (categoryQ : Option String)
    (txs : List MappedTransaction) : List CategorizedTransaction :=
  txs.filterMap fun tx =>
    if jsFalsy categoryQ || categoryQ == some (classify tx.title) then
      some (attachCategory classify tx)
    else none

/-- Stable insertion of one record into a weight-sorted list. -/
def insertByWeight (t : CategorizedTransaction) :
    List CategorizedTransaction → List CategorizedTransaction
  | [] => [t]
  | u :: us => if t.weight ≤ u.weight then t :: u :: us else u :: insertByWeight t us

/-- The final `categorizedTransactions.sort((prev, next) => prev.weight - next.weight)`
(handler line 360): the stable sort by ascending weight, as insertion sort
(stable sortedness determines the result uniquely). -/
def sortByWeight : List CategorizedTransaction → List CategorizedTransaction
  | [] => []
  | t :: ts => insertByWeight t (sortByWeight ts)

/-- The whole enrichment pipeline of `getAccountTransactions`, in the
handler's stage order: balance mapping, fuzzy search, date window,
categorization, final re-sort by weight. -/
def pipeline (fz : String → List MappedTransaction → List MappedTransaction)
    (classify : Option String → String)
    (txs : List RawTransaction) (currentBalance : Int)
    (q : Option String) (dFrom dTo : Option Nat) (categoryQ : Option String) :
    Except DataFormatError (List CategorizedTransaction) :=
  match annotate txs currentBalance with
  | Except.error e => Except.error e
  | Except.ok mapped =>
    Except.ok (sortByWeight (categorizeStep classify categoryQ
      (dateStep dFrom dTo (searchStep fz q mapped))))

/-- The mapped fields of a categorized record (drops the label). -/
def toMapped (t : CategorizedTransaction) : MappedTransaction :=
  { id := t.id
    weight := t.weight
    title := t.title
    date := t.date
    amount := t.amount
    totalAmountInt := t.totalAmountInt }

-- sanity checks of the modelled amount grammar
example : parseAmount "100" = some 10000 := by decide
example : parseAmount "-30.5" = some (-3050) := by decide
example : parseAmount "12.34" = some 1234 := by decide
example : parseAmount "abc" = none := by decide
example : parseAmount "" = none := by decide
example : parseAmount "-.5" = none := by decide

/-! ### The balance-mapping step, characterized -/

theorem annotateFrom_cons_ok {tx : RawTransaction} {rest : List RawTransaction}
    {i : Nat} {bal : Int} {out : List MappedTransaction} :
    annotateFrom (tx :: rest) i bal = Except.ok out ↔
    ∃ a tail, parseAmount tx.transactionAmount = some a ∧
      annotateFrom rest (i + 1) (bal - a) = Except.ok tail ∧
      out = { id := tx.transactionId, weight := i,
              title := tx.remittanceInformationUnstructuredArray.head?,
              date := tx.bookingDate, amount := a, totalAmountInt := bal } :: tail := by
  constructor
  · intro h
    cases hp : parseAmount tx.transactionAmount with
    | none => simp [annotateFrom, hp] at h
    | some a =>
      cases hr : annotateFrom rest (i + 1) (bal - a) with
      | error e => simp [annotateFrom, hp, hr] at h
      | ok tail =>
        simp only [annotateFrom, hp, hr, Except.ok.injEq] at h
        exact ⟨a, tail, rfl, hr, h.symm⟩
  · rintro ⟨a, tail, hp, hr, rfl⟩
    simp [annotateFrom, hp, hr]

theorem annotateFrom_length {txs : List RawTransaction} :
    ∀ {i : Nat} {bal : Int} {out : List MappedTransaction},
      annotateFrom txs i bal = Except.ok out → out.length = txs.length := by
  induction txs with
  | nil =>
    intro i bal out h
    simp only [annotateFrom, Except.ok.injEq] at h
    subst h
    rfl
  | cons tx rest ih =>
    intro i bal out h
    rcases annotateFrom_cons_ok.mp h with ⟨a, tail, _, hr, rfl⟩
    simp [ih hr]

theorem annotateFrom_fields {txs : List RawTransaction} :
    ∀ {i : Nat} {bal : Int} {out : List MappedTransaction},
      annotateFrom txs i bal = Except.ok out →
      ∀ j t, out[j]? = some t →
        ∃ tx, txs[j]? = some tx ∧
          t.id = tx.transactionId ∧ t.weight = i + j ∧
          t.title = tx.remittanceInformationUnstructuredArray.head? ∧
          t.date = tx.bookingDate ∧
          parseAmount tx.transactionAmount = some t.amount := by
  induction txs with
  | nil =>
    intro i bal out h j t hj
    simp only [annotateFrom, Except.ok.injEq] at h
    subst h
    simp at hj
  | cons tx rest ih =>
    intro i bal out h j t hj
    rcases annotateFrom_cons_ok.mp h with ⟨a, tail, hp, hr, rfl⟩
    cases j with
    | zero =>
      simp only [List.getElem?_cons_zero, Option.some.injEq] at hj
      rcases hj with rfl
      exact ⟨tx, by simp, rfl, by simp, rfl, rfl, hp⟩
    | succ j =>
      simp only [List.getElem?_cons_succ] at hj ⊢
      obtain ⟨tx', htx', h1, h2, h3, h4, h5⟩ := ih hr j t hj
      exact ⟨tx', htx', h1, by omega, h3, h4, h5⟩

theorem annotateFrom_head_bal {txs : List RawTransaction} {i : Nat} {bal : Int}
    {out : List MappedTransaction} (h : annotateFrom txs i bal = Except.ok out) :
    ∀ t, out[0]? = some t → t.totalAmountInt = bal := by
  cases txs with
  | nil =>
    simp only [annotateFrom, Except.ok.injEq] at h
    subst h
    intro t ht
    simp at ht
  | cons tx rest =>
    rcases annotateFrom_cons_ok.mp h with ⟨a, tail, _, _, rfl⟩
    intro t ht
    simp only [List.getElem?_cons_zero, Option.some.injEq] at ht
    subst ht
    rfl

theorem annotateFrom_chain {txs : List RawTransaction} :
    ∀ {i : Nat} {bal : Int} {out : List MappedTransaction},
      annotateFrom txs i bal = Except.ok out →
      ∀ j tp tc, out[j]? = some tp → out[j + 1]? = some tc →
        tc.totalAmountInt = tp.totalAmountInt - tp.amount := by
  induction txs with
  | nil =>
    intro i bal out h j tp tc hp hc
    simp only [annotateFrom, Except.ok.injEq] at h
    subst h
    simp at hp
  | cons tx rest ih =>
    intro i bal out h j tp tc hp hc
    rcases annotateFrom_cons_ok.mp h with ⟨a, tail, _, hr, rfl⟩
    cases j with
    | zero =>
      simp only [List.getElem?_cons_zero, Option.some.injEq] at hp
      simp only [List.getElem?_cons_succ] at hc
      subst hp
      exact annotateFrom_head_bal hr tc hc
    | succ j =>
      simp only [List.getElem?_cons_succ] at hp hc
      exact ih hr j tp tc hp hc

theorem annotateFrom_error_iff {txs : List RawTransaction} :
    ∀ {i : Nat} {bal : Int},
      annotateFrom txs i bal = Except.error DataFormatError.malformedAmount ↔
      ∃ tx ∈ txs, parseAmount tx.transactionAmount = none := by
  induction txs with
  | nil => intro i bal; simp [annotateFrom]
  | cons tx rest ih =>
    intro i bal
    cases hp : parseAmount tx.transactionAmount with
    | none => simp [annotateFrom, hp]
    | some a =>
      cases hr : annotateFrom rest (i + 1) (bal - a) with
      | error e =>
        cases e
        simp only [annotateFrom, hp, hr]
        simp only [List.mem_cons]
        constructor
        · intro _
          obtain ⟨tx', htx', hn⟩ := ih.mp hr
          exact ⟨tx', Or.inr htx', hn⟩
        · intro _; trivial
      | ok tail =>
        simp only [annotateFrom, hp, hr]
        simp only [List.mem_cons]
        constructor
        · intro h; exact absurd h (by simp)
        · rintro ⟨tx', htx', hn⟩
          rcases htx' with rfl | htx'
          · rw [hp] at hn; cases hn
          · have hcontra := (@ih (i + 1) (bal - a)).mpr ⟨tx', htx', hn⟩
            rw [hr] at hcontra
            cases hcontra

theorem annotateFrom_ok_or_error {txs : List RawTransaction} {i : Nat} {bal : Int} :
    (∃ out, annotateFrom txs i bal = Except.ok out) ∨
      annotateFrom txs i bal = Except.error DataFormatError.malformedAmount := by
  cases h : annotateFrom txs i bal with
  | ok out => exact Or.inl ⟨out, rfl⟩
  | error e => cases e; exact Or.inr rfl

/-! ### Claim C1 -/

/-- Claim C1: for every transaction list (newest-first) and current balance,
the enriched output has one record per transaction, its first running balance
is the current balance, every later running balance is the previous running
balance minus the previous record's amount, and each record's amount is the
exactly-parsed minor-unit value of that transaction's amount string. -/
theorem balance_reconstruction (txs : List RawTransaction) (currentBalance : Int)
    (out : List MappedTransaction) (h : annotate txs currentBalance = Except.ok out) :
    out.length = txs.length ∧
    (∀ t : MappedTransaction, out[0]? = some t → t.totalAmountInt = currentBalance) ∧
    (∀ (j : Nat) (tp tc : MappedTransaction), out[j]? = some tp → out[j + 1]? = some tc →
      tc.totalAmountInt = tp.totalAmountInt - tp.amount) ∧
    (∀ (j : Nat) (tx : RawTransaction) (t : MappedTransaction),
      txs[j]? = some tx → out[j]? = some t →
      parseAmount tx.transactionAmount = some t.amount) := by
  refine ⟨annotateFrom_length h, annotateFrom_head_bal h, annotateFrom_chain h, ?_⟩
  intro j tx t htx ht
  obtain ⟨tx', htx', _, _, _, _, hpa⟩ := annotateFrom_fields h j t ht
  rw [htx] at htx'
  cases htx'
  exact hpa

/-- The spec's regression vector: amounts 100, −30, 10 (newest first) with
current balance 500.00. -/
def c1Txs : List RawTransaction :=
  [ { transactionId := "a", bookingDate := 172800000, transactionAmount := "100",
      remittanceInformationUnstructuredArray := ["Salary"] },
    { transactionId := "b", bookingDate := 86400000, transactionAmount := "-30",
      remittanceInformationUnstructuredArray := ["Groceries"] },
    { transactionId := "c", bookingDate := 0, transactionAmount := "10",
      remittanceInformationUnstructuredArray := ["Coffee"] } ]

/-- What the mapping step produces on `c1Txs`: running balances 500.00,
400.00, 430.00 in minor units. -/
def c1Out : List MappedTransaction :=
  [ { id := "a", weight := 0, title := some "Salary", date := 172800000,
      amount := 10000, totalAmountInt := 50000 },
    { id := "b", weight := 1, title := some "Groceries", date := 86400000,
      amount := -3000, totalAmountInt := 40000 },
    { id := "c", weight := 2, title := some "Coffee", date := 0,
      amount := 1000, totalAmountInt := 43000 } ]

/-- Witness for C1 at the spec's regression vector. -/
theorem balance_reconstruction_witness :
    annotate c1Txs 50000 = Except.ok c1Out ∧
    (c1Out.length = c1Txs.length ∧
     (∀ t : MappedTransaction, c1Out[0]? = some t → t.totalAmountInt = 50000) ∧
     (∀ (j : Nat) (tp tc : MappedTransaction),
       c1Out[j]? = some tp → c1Out[j + 1]? = some tc →
       tc.totalAmountInt = tp.totalAmountInt - tp.amount) ∧
     (∀ (j : Nat) (tx : RawTransaction) (t : MappedTransaction),
       c1Txs[j]? = some tx → c1Out[j]? = some t →
       parseAmount tx.transactionAmount = some t.amount)) :=
  ⟨rfl, balance_reconstruction c1Txs 50000 c1Out rfl⟩

/-! ### The final re-sort by weight, characterized -/

theorem mem_insertByWeight {t x : CategorizedTransaction} {l : List CategorizedTransaction} :
    x ∈ insertByWeight t l ↔ x = t ∨ x ∈ l := by
  induction l with
  | nil => simp [insertByWeight]
  | cons u us ih =>
    by_cases h : t.weight ≤ u.weight
    · simp only [insertByWeight, if_pos h, List.mem_cons]
    · simp only [insertByWeight, if_neg h, List.mem_cons, ih]
      tauto

theorem pairwise_insertByWeight {t : CategorizedTransaction} {l : List CategorizedTransaction}
    (h : l.Pairwise (fun a b => a.weight ≤ b.weight)) :
    (insertByWeight t l).Pairwise (fun a b => a.weight ≤ b.weight) := by
  induction l with
  | nil => simp [insertByWeight]
  | cons u us ih =>
    rcases List.pairwise_cons.mp h with ⟨hu, hus⟩
    by_cases hw : t.weight ≤ u.weight
    · rw [insertByWeight, if_pos hw]
      refine List.pairwise_cons.mpr ⟨?_, h⟩
      intro x hx
      rcases List.mem_cons.mp hx with rfl | hx
      · exact hw
      · exact le_trans hw (hu x hx)
    · rw [insertByWeight, if_neg hw]
      refine List.pairwise_cons.mpr ⟨?_, ih hus⟩
      intro x hx
      rcases mem_insertByWeight.mp hx with rfl | hx
      · omega
      · exact hu x hx

theorem mem_sortByWeight {x : CategorizedTransaction} {l : List CategorizedTransaction} :
    x ∈ sortByWeight l ↔ x ∈ l := by
  induction l with
  | nil => simp [sortByWeight]
  | cons t ts ih => simp [sortByWeight, mem_insertByWeight, ih]

theorem pairwise_sortByWeight (l : List CategorizedTransaction) :
    (sortByWeight l).Pairwise (fun a b => a.weight ≤ b.weight) := by
  induction l with
  | nil => simp [sortByWeight]
  | cons t ts ih => exact pairwise_insertByWeight ih

/-! ### The filter steps, characterized -/

theorem mem_searchStep {fz : String → List MappedTransaction → List MappedTransaction}
    (hfz : ∀ s l, ∀ x ∈ fz s l, x ∈ l) {q : Option String}
    {txs : List MappedTransaction} {x : MappedTransaction}
    (hx : x ∈ searchStep fz q txs) : x ∈ txs := by
  cases q with
  | none => exact hx
  | some s =>
    simp only [searchStep] at hx
    by_cases hs : (s == "") = true
    · rwa [if_pos hs] at hx
    · rw [if_neg hs] at hx
      exact hfz s txs x hx

theorem mem_dateStep {dFrom dTo : Option Nat} {txs : List MappedTransaction}
    {x : MappedTransaction} (hx : x ∈ dateStep dFrom dTo txs) : x ∈ txs := by
  cases dFrom with
  | none => exact hx
  | some f =>
    cases dTo with
    | none => exact hx
    | some t => exact (List.mem_filter.mp hx).1

theorem mem_categorizeStep {classify : Option String → String} {categoryQ : Option String}
    {txs : List MappedTransaction} {y : CategorizedTransaction} :
    y ∈ categorizeStep classify categoryQ txs ↔
    ∃ tx ∈ txs, (jsFalsy categoryQ || categoryQ == some (classify tx.title)) = true ∧
      y = attachCategory classify tx := by
  simp only [categorizeStep, List.mem_filterMap]
  constructor
  · rintro ⟨tx, htx, hy⟩
    by_cases hc : (jsFalsy categoryQ || categoryQ == some (classify tx.title)) = true
    · rw [if_pos hc] at hy
      cases hy
      exact ⟨tx, htx, hc, rfl⟩
    · rw [if_neg hc] at hy
      cases hy
  · rintro ⟨tx, htx, hc, rfl⟩
    exact ⟨tx, htx, by rw [if_pos hc]⟩

theorem categorizeStep_none_eq_map (classify : Option String → String)
    (txs : List MappedTransaction) :
    categorizeStep classify none txs = txs.map (attachCategory classify) := by
  induction txs with
  | nil => rfl
  | cons tx rest ih =>
    simp only [categorizeStep, List.filterMap_cons, jsFalsy, Bool.true_or, if_pos,
      List.map_cons] at ih ⊢
    rw [ih]

/-! ### Claim C4 -/

/-- Claim C4: when the search query is absent or the empty string (both JS
falsy), the fuzzy-search step is the identity: same elements, same order. -/
theorem search_identity_on_empty_query
    (fz : String → List MappedTransaction → List MappedTransaction)
    (txs : List MappedTransaction) :
    searchStep fz none txs = txs ∧ searchStep fz (some "") txs = txs :=
  ⟨rfl, by simp [searchStep]⟩

/-! ### Claim C5 -/

/-- Claim C5: the date-range step filters only when both bounds are present;
with either bound absent (in particular exactly one supplied) it returns the
input unchanged. -/
theorem date_filter_all_or_nothing (dFrom dTo : Option Nat)
    (txs : List MappedTransaction) :
    dateStep none dTo txs = txs ∧ dateStep dFrom none txs = txs := by
  constructor
  · cases dTo <;> rfl
  · cases dFrom <;> rfl

/-! ### Claim C7 -/

/-- Claim C7: with a non-empty category filter, the categorization step keeps
exactly the transactions whose classifier label equals the filter
(case-sensitive string equality), each carrying its label; with no filter it
keeps every transaction, labeled. -/
theorem categorize_filter_exact (classify : Option String → String) (cat : String)
    (txs : List MappedTransaction) (hne : cat ≠ "") :
    categorizeStep classify (some cat) txs =
      (txs.filter (fun tx => classify tx.title == cat)).map (attachCategory classify) ∧
    categorizeStep classify none txs = txs.map (attachCategory classify) ∧
    (∀ y ∈ categorizeStep classify (some cat) txs,
      y.category = classify y.title ∧ y.category = cat) ∧
    (∀ y ∈ categorizeStep classify none txs, y.category = classify y.title) := by
  have hfalse : jsFalsy (some cat) = false := by
    simp [jsFalsy, hne]
  have key : categorizeStep classify (some cat) txs =
      (txs.filter (fun tx => classify tx.title == cat)).map (attachCategory classify) := by
    induction txs with
    | nil => rfl
    | cons tx rest ih =>
      by_cases hc : classify tx.title = cat
      · simp only [categorizeStep, List.filterMap_cons, hfalse, Bool.false_or,
          List.filter_cons] at ih ⊢
        rw [hc]
        simp only [beq_self_eq_true, if_pos, List.map_cons]
        rw [ih]
      · simp only [categorizeStep, List.filterMap_cons, hfalse, Bool.false_or,
          List.filter_cons] at ih ⊢
        have h1 : (some cat == some (classify tx.title)) = false := by
          simp [Ne.symm hc]
        have h2 : (classify tx.title == cat) = false := by
          simp [hc]
        rw [h1, h2]
        simpa using ih
  refine ⟨key, categorizeStep_none_eq_map classify txs, ?_, ?_⟩
  · intro y hy
    rcases mem_categorizeStep.mp hy with ⟨tx, _, hcond, rfl⟩
    rw [hfalse, Bool.false_or] at hcond
    have : cat = classify tx.title := by
      have := (beq_iff_eq).mp hcond
      exact Option.some.inj this
    exact ⟨rfl, this.symm⟩
  · intro y hy
    rcases mem_categorizeStep.mp hy with ⟨tx, _, _, rfl⟩
    exact rfl

/-! ### Claim C10 -/

/-- Claim C10 (implicit): the empty-string category filter is JS-falsy, so it
behaves exactly like supplying no category filter: the whole pipeline returns
the same result. -/
theorem pipeline_empty_category_filter
    (fz : String → List MappedTransaction → List MappedTransaction)
    (classify : Option String → String) (txs : List RawTransaction)
    (currentBalance : Int) (q : Option String) (dFrom dTo : Option Nat) :
    pipeline fz classify txs currentBalance q dFrom dTo (some "") =
    pipeline fz classify txs currentBalance q dFrom dTo none := by
  unfold pipeline
  cases annotate txs currentBalance with
  | error e => rfl
  | ok mapped =>
    have h : ∀ l : List MappedTransaction,
        categorizeStep classify (some "") l = categorizeStep classify none l := by
      intro l
      unfold categorizeStep
      simp [jsFalsy]
    simp only [h]

/-- A single mapped transaction used by the categorization witness. -/
def c7Tx : MappedTransaction :=
  { id := "t", weight := 0, title := some "rema supermarket", date := 0,
    amount := -500, totalAmountInt := 19500 }

/-- Witness for C7: a classifier labelling everything `"Food"` and the filter
`"Food"` on a one-transaction list. -/
theorem categorize_filter_exact_witness :
    "Food" ≠ "" ∧
    (categorizeStep (fun _ => "Food") (some "Food") [c7Tx] =
      (([c7Tx].filter (fun tx => (fun _ => "Food") tx.title == "Food")).map
        (attachCategory (fun _ => "Food"))) ∧
     categorizeStep (fun _ => "Food") none [c7Tx] =
      [c7Tx].map (attachCategory (fun _ => "Food")) ∧
     (∀ y ∈ categorizeStep (fun _ => "Food") (some "Food") [c7Tx],
       y.category = (fun _ => "Food") y.title ∧ y.category = "Food") ∧
     (∀ y ∈ categorizeStep (fun _ => "Food") none [c7Tx],
       y.category = (fun _ => "Food") y.title)) :=
  ⟨by decide, categorize_filter_exact (fun _ => "Food") "Food" [c7Tx] (by decide)⟩

/-! ### Claim C6 -/

/-- A mapped transaction dated exactly on day 1 of the day grid. -/
def c6Tx : MappedTransaction :=
  { id := "d", weight := 0, title := some "x", date := 86400000,
    amount := -100, totalAmountInt := 100 }

/-- Counterexample to C6 as stated: with `from` on day 1 and `to` on day 0
(an inverted window), the transaction dated exactly on the `from` day is not
retained — `startOfDay from ≤ date` holds but `date ≤ endOfDay to` fails, so
the step returns the empty list. -/
theorem date_inclusivity_counterexample :
    startOfDay c6Tx.date = startOfDay 86400000 ∧
    dateStep (some 86400000) (some 0) [c6Tx] = [] :=
  ⟨rfl, by decide⟩

/-- Claim C6, amended: with both bounds present, a transaction is retained
iff `startOfDay from ≤ date ≤ endOfDay to`, and the relative order of the
retained transactions is unchanged — for every window, inverted or not; a
transaction dated exactly on the `from` day or on the `to` day (any time of
day) is guaranteed to be retained when the window is not inverted, i.e. the
`from` day is at or before the `to` day. -/
theorem date_inclusivity_amended (f t : Nat) (txs : List MappedTransaction) :
    (∀ tx : MappedTransaction,
      tx ∈ dateStep (some f) (some t) txs ↔
        tx ∈ txs ∧ startOfDay f ≤ tx.date ∧ tx.date ≤ endOfDay t) ∧
    (dateStep (some f) (some t) txs).Sublist txs ∧
    (f / dayMs ≤ t / dayMs →
      ∀ tx ∈ txs, (tx.date / dayMs = f / dayMs ∨ tx.date / dayMs = t / dayMs) →
        tx ∈ dateStep (some f) (some t) txs) := by
  have hmem : ∀ tx : MappedTransaction,
      tx ∈ dateStep (some f) (some t) txs ↔
        tx ∈ txs ∧ startOfDay f ≤ tx.date ∧ tx.date ≤ endOfDay t := by
    intro tx
    simp [dateStep, List.mem_filter, and_assoc]
  refine ⟨hmem, List.filter_sublist txs, ?_⟩
  intro h tx htx hday
  rcases hday with hq | hq <;>
    refine (hmem tx).mpr ⟨htx, ?_, ?_⟩ <;>
      (simp only [startOfDay, endOfDay, dayMs] at h hq ⊢; omega)

/-! ### Claim C2 -/

/-- Claim C2: balances are computed over the complete, unfiltered list before
any filtering, so every transaction surviving any combination of search, date
and category filters appears, with the same running balance (the same whole
record), in the output of the completely unfiltered pipeline. -/
theorem pipeline_balance_noninterference
    (fz : String → List MappedTransaction → List MappedTransaction)
    (classify : Option String → String) (txs : List RawTransaction)
    (currentBalance : Int) (q : Option String) (dFrom dTo : Option Nat)
    (categoryQ : Option String) (out : List CategorizedTransaction)
    (hfz : ∀ s l, ∀ x ∈ fz s l, x ∈ l)
    (h : pipeline fz classify txs currentBalance q dFrom dTo categoryQ = Except.ok out) :
    ∃ outAll, pipeline fz classify txs currentBalance none none none none = Except.ok outAll ∧
      ∀ y ∈ out, y ∈ outAll := by
  cases ha : annotate txs currentBalance with
  | error e =>
    unfold pipeline at h
    rw [ha] at h
    cases h
  | ok mapped =>
    unfold pipeline at h
    rw [ha] at h
    injection h with h
    refine ⟨sortByWeight (categorizeStep classify none mapped), ?_, ?_⟩
    · unfold pipeline
      rw [ha]
      rfl
    · intro y hy
      rw [← h] at hy
      rw [mem_sortByWeight] at hy
      rcases mem_categorizeStep.mp hy with ⟨tx, htx, _, rfl⟩
      have htx2 : tx ∈ mapped := mem_searchStep hfz (mem_dateStep htx)
      rw [mem_sortByWeight, categorizeStep_none_eq_map]
      exact List.mem_map_of_mem (attachCategory classify) htx2

/-- Stand-in for `fuzzysort.go` in the witnesses: returns its input. -/
def wFz : String → List MappedTransaction → List MappedTransaction := fun _ l => l

/-- Classifier stand-in for the witnesses: labels everything `"Other"`. -/
def wClassify : Option String → String := fun _ => "Other"

/-- Result of the witness pipeline run with search `"Sal"`, window day 0 ..
day 1 and category `"Other"` on `c1Txs`. -/
def c2Out : List CategorizedTransaction :=
  [ { id := "b", weight := 1, title := some "Groceries", date := 86400000,
      amount := -3000, totalAmountInt := 40000, category := "Other" },
    { id := "c", weight := 2, title := some "Coffee", date := 0,
      amount := 1000, totalAmountInt := 43000, category := "Other" } ]

/-- Witness for C2 on the spec's regression vector with all filters active. -/
theorem pipeline_balance_noninterference_witness :
    (∀ s l, ∀ x ∈ wFz s l, x ∈ l) ∧
    (∃ outAll, pipeline wFz wClassify c1Txs 50000 none none none none = Except.ok outAll ∧
      ∀ y ∈ c2Out, y ∈ outAll) :=
  ⟨fun _ _ _ hx => hx,
   pipeline_balance_noninterference wFz wClassify c1Txs 50000 (some "Sal") (some 0)
     (some 86400000) (some "Other") c2Out (fun _ _ _ hx => hx) rfl⟩

/-! ### Claim C3 -/

/-- Claim C3: whatever the search, date and category parameters do, the final
pipeline output is sorted by ascending `weight`, and each output record is
the record the balance-mapping step put at index `weight` — i.e. the
survivors stand in their original provider order. -/
theorem pipeline_order_restoration
    (fz : String → List MappedTransaction → List MappedTransaction)
    (classify : Option String → String) (txs : List RawTransaction)
    (currentBalance : Int) (q : Option String) (dFrom dTo : Option Nat)
    (categoryQ : Option String) (out : List CategorizedTransaction)
    (hfz : ∀ s l, ∀ x ∈ fz s l, x ∈ l)
    (h : pipeline fz classify txs currentBalance q dFrom dTo categoryQ = Except.ok out) :
    out.Pairwise (fun a b => a.weight ≤ b.weight) ∧
    ∃ mapped, annotate txs currentBalance = Except.ok mapped ∧
      ∀ y ∈ out, mapped[y.weight]? = some (toMapped y) := by
  cases ha : annotate txs currentBalance with
  | error e =>
    unfold pipeline at h
    rw [ha] at h
    cases h
  | ok mapped =>
    unfold pipeline at h
    rw [ha] at h
    injection h with h
    subst h
    refine ⟨pairwise_sortByWeight _, mapped, rfl, ?_⟩
    intro y hy
    rw [mem_sortByWeight] at hy
    rcases mem_categorizeStep.mp hy with ⟨tx, htx, _, rfl⟩
    have htx2 : tx ∈ mapped := mem_searchStep hfz (mem_dateStep htx)
    obtain ⟨j, hj⟩ := List.mem_iff_getElem?.mp htx2
    have ha' : annotateFrom txs 0 currentBalance = Except.ok mapped := ha
    obtain ⟨tx', _, _, hw, _, _, _⟩ := annotateFrom_fields ha' j tx hj
    have hwj : (attachCategory classify tx).weight = j := by
      have : (attachCategory classify tx).weight = tx.weight := rfl
      omega
    rw [hwj]
    have : toMapped (attachCategory classify tx) = tx := rfl
    rw [this]
    exact hj

/-- Witness for C3 on the spec's regression vector with all filters active. -/
theorem pipeline_order_restoration_witness :
    (∀ s l, ∀ x ∈ wFz s l, x ∈ l) ∧
    (c2Out.Pairwise (fun a b => a.weight ≤ b.weight) ∧
     ∃ mapped, annotate c1Txs 50000 = Except.ok mapped ∧
       ∀ y ∈ c2Out, mapped[y.weight]? = some (toMapped y)) :=
  ⟨fun _ _ _ hx => hx,
   pipeline_order_restoration wFz wClassify c1Txs 50000 (some "Sal") (some 0)
     (some 86400000) (some "Other") c2Out (fun _ _ _ hx => hx) rfl⟩

/-! ### Claim C8 -/

theorem annotateFrom_ok_of_wellformed {txs : List RawTransaction} {i : Nat} {bal : Int}
    (h : ∀ tx ∈ txs, (parseAmount tx.transactionAmount).isSome = true) :
    ∃ out, annotateFrom txs i bal = Except.ok out := by
  rcases @annotateFrom_ok_or_error txs i bal with hok | herr
  · exact hok
  · obtain ⟨tx, htx, hn⟩ := annotateFrom_error_iff.mp herr
    have hs := h tx htx
    rw [hn] at hs
    cases hs

/-- A transaction whose remittance array is empty. -/
def c8Tx : RawTransaction :=
  { transactionId := "e", bookingDate := 0, transactionAmount := "5.00",
    remittanceInformationUnstructuredArray := [] }

/-- What the mapping step makes of `c8Tx`: the title is `none`. -/
def c8Out : MappedTransaction :=
  { id := "e", weight := 0, title := none, date := 0, amount := 500,
    totalAmountInt := 1000 }

/-- Counterexample to C8 as stated: on an empty remittance array the handler
reads `remittanceInformationUnstructuredArray[0]`, which in JS is
`undefined`, not the empty string — the produced title is `none`, not
`some ""`. -/
theorem empty_remittance_title_counterexample :
    annotate [c8Tx] 1000 = Except.ok [c8Out] ∧
    c8Out.title = none ∧ c8Out.title ≠ some "" :=
  ⟨rfl, rfl, by decide⟩

/-- Claim C8, amended: for every transaction with an empty remittance array,
the mapping step sets its title to `none` (JS `undefined`), not the empty
string; the step completes without raising provided every amount string is
well-formed, and the search, date and categorization steps — which treat the
title as an opaque value handed to the external fuzzysort and classifier
libraries — complete as well. -/
theorem empty_remittance_amended (txs : List RawTransaction) (currentBalance : Int)
    (h : ∀ tx ∈ txs, (parseAmount tx.transactionAmount).isSome = true) :
    ∃ out, annotate txs currentBalance = Except.ok out ∧
      (∀ (j : Nat) (tx : RawTransaction) (t : MappedTransaction),
        txs[j]? = some tx → out[j]? = some t →
        tx.remittanceInformationUnstructuredArray = [] → t.title = none) ∧
      (∀ (fz : String → List MappedTransaction → List MappedTransaction)
        (classify : Option String → String) (q : Option String)
        (dFrom dTo : Option Nat) (categoryQ : Option String),
        ∃ res, pipeline fz classify txs currentBalance q dFrom dTo categoryQ =
          Except.ok res) := by
  obtain ⟨out, hout⟩ := @annotateFrom_ok_of_wellformed txs 0 currentBalance h
  have hout' : annotate txs currentBalance = Except.ok out := hout
  refine ⟨out, hout', ?_, ?_⟩
  · intro j tx t hj ht hrem
    obtain ⟨tx', htx', _, _, htitle, _, _⟩ := annotateFrom_fields hout j t ht
    rw [hj] at htx'
    cases htx'
    rw [htitle, hrem]
    rfl
  · intro fz classify q dFrom dTo categoryQ
    refine ⟨sortByWeight (categorizeStep classify categoryQ
      (dateStep dFrom dTo (searchStep fz q out))), ?_⟩
    unfold pipeline
    rw [hout']

/-- Witness for the amended C8 on the empty-remittance transaction. -/
theorem empty_remittance_amended_witness :
    (∀ tx ∈ [c8Tx], (parseAmount tx.transactionAmount).isSome = true) ∧
    (∃ out, annotate [c8Tx] 1000 = Except.ok out ∧
      (∀ (j : Nat) (tx : RawTransaction) (t : MappedTransaction),
        [c8Tx][j]? = some tx → out[j]? = some t →
        tx.remittanceInformationUnstructuredArray = [] → t.title = none) ∧
      (∀ (fz : String → List MappedTransaction → List MappedTransaction)
        (classify : Option String → String) (q : Option String)
        (dFrom dTo : Option Nat) (categoryQ : Option String),
        ∃ res, pipeline fz classify [c8Tx] 1000 q dFrom dTo categoryQ =
          Except.ok res)) :=
  ⟨by decide, empty_remittance_amended [c8Tx] 1000 (by decide)⟩

/-! ### Claim C9 -/

/-- Claim C9: the pipeline fails with a `DataFormatError` — producing no
enriched output — exactly when some transaction's amount string is
non-numeric; with every amount well-formed, no `DataFormatError` arises. -/
theorem pipeline_malformed_amount
    (fz : String → List MappedTransaction → List MappedTransaction)
    (classify : Option String → String) (txs : List RawTransaction)
    (currentBalance : Int) (q : Option String) (dFrom dTo : Option Nat)
    (categoryQ : Option String) :
    pipeline fz classify txs currentBalance q dFrom dTo categoryQ =
        Except.error DataFormatError.malformedAmount ↔
      ∃ tx ∈ txs, parseAmount tx.transactionAmount = none := by
  cases ha : annotateFrom txs 0 currentBalance with
  | error e =>
    cases e
    constructor
    · intro _
      exact annotateFrom_error_iff.mp ha
    · intro _
      unfold pipeline annotate
      rw [ha]
  | ok mapped =>
    constructor
    · intro hl
      unfold pipeline annotate at hl
      rw [ha] at hl
      cases hl
    · intro hr
      have hcontra := (@annotateFrom_error_iff txs 0 currentBalance).mpr hr
      rw [ha] at hcontra
      cases hcontra

end Spendify
